import Mathlib

/-!
Shallow embedding of `src/commands/send_event.rs` (the `send-event` command of
sentry-cli): manual event assembly from command-line arguments, the key:value
micro-parsers for tags/extra/user, environ injection, user derivation with OS
fallback, logfile breadcrumb extraction, and the file-replay glob mode.

External collaborators (the sentry protocol types' parsers, `get_user_name`,
`detect_release_name`, file IO, the transport client) are modelled as
parameters or, where the spec fixes their behaviour, as definitions whose doc
comment says so.
-/

/-- Severity levels of `sentry::protocol::Level`
(spec section 3: enum debug, info, warning, error, fatal). -/
inductive Level where
  | debug
  | info
  | warning
  | error
  | fatal
deriving DecidableEq, Repr

/-- Modelled from the spec: the `FromStr` impl used by `l.parse()` at
`send_event.rs:194` lives in the external `sentry` crate; the spec states a
case-sensitive match against the five enumerated names. -/
def Level.parse (s : String) : Option Level :=
  if s = "debug" then some .debug
  else if s = "info" then some .info
  else if s = "warning" then some .warning
  else if s = "error" then some .error
  else if s = "fatal" then some .fatal
  else none

/-- `sentry::protocol::LogEntry`: message template plus positional params
(params are strings here; the code converts each argument string into a
JSON value verbatim). -/
structure LogEntry where
  message : String
  params : List String
deriving DecidableEq, Repr

/-- The JSON values this command actually stores in `extra`: plain strings
(`Value::String(value.into())`, line 242) and a string-valued object
(`Value::Object(env::vars()...)`, line 234). -/
inductive JValue where
  | str (s : String)
  | strObj (fields : List (String × String))
deriving DecidableEq, Repr

/-- Modelled from the spec: the IP-address type of `sentry::types`; the spec
only needs its `Default` value (the unspecified/zero address) and that parsing
an arbitrary string can fail. -/
inductive IpAddress where
  | unspecified
  | addr (s : String)
deriving DecidableEq, Repr

/-- `Default::default()` for the IP address: the unspecified/zero address. -/
def IpAddress.default : IpAddress := .unspecified

/-- `sentry::protocol::User` (the fields this command touches). -/
structure User where
  id : Option String := none
  email : Option String := none
  ip_address : Option IpAddress := none
  username : Option String := none
  other : List (String × String) := []
deriving DecidableEq, Repr

/-- `User::default()`. -/
def User.default : User := {}

/-- A breadcrumb as produced by logfile extraction: optional level plus
message (spec section 4.4). -/
structure Breadcrumb where
  level : Option Level := none
  message : String
deriving DecidableEq, Repr

/-- The fields of `sentry::protocol::Event` that `send_event.rs` assembles.
Defaults mirror `Event::default()` as the spec describes it (platform
`"other"`, level `error`). The sdk descriptor, timestamp parsing and the
transport are external collaborators and are not part of the claims. -/
structure Event where
  level : Level := .error
  release : Option String := none
  dist : Option String := none
  platform : String := "other"
  environment : Option String := none
  logentry : Option LogEntry := none
  tags : List (String × String) := []
  extra : List (String × JValue) := []
  user : Option User := none
  fingerprint : Option (List String) := none
  breadcrumbs : List Breadcrumb := []
deriving DecidableEq, Repr

/-- The command-line inputs of the manual-assembly mode, as clap delivers
them: `value_of` is an `Option String`, `values_of` is an `Option` of a list
(absent flag gives `none`), `is_present` is a `Bool`. The logfile is
represented by its lines, already read (`attach_logfile` reads the file). -/
structure Args where
  level : Option String := none
  release : Option String := none
  dist : Option String := none
  platform : Option String := none
  environment : Option String := none
  no_environ : Bool := false
  message : Option (List String) := none
  message_args : Option (List String) := none
  tags : List String := []
  extra : List String := []
  user_data : Option (List String) := none
  fingerprint : Option (List String) := none
  logfile : Option (List String) := none
  with_categories : Bool := false
deriving DecidableEq, Repr

/-- Rust `s.splitn(2, ':')` consumed as `(first, Option rest)`: scan for the
first colon; everything before it is the first component, everything after it
(colons included) the second; with no colon at all the second `next()` is
`None`. -/
def splitn2ColonAux : List Char → List Char → String × Option String
  | [], acc => (String.mk acc.reverse, none)
  | c :: cs, acc =>
    if c = ':' then (String.mk acc.reverse, some (String.mk cs))
    else splitn2ColonAux cs (c :: acc)

/-- The key:value micro-parser used for tags (line 225), extra (line 239) and
user pairs (line 248): `splitn(2, ':')`, first element always present. -/
def splitKV (s : String) : String × Option String :=
  splitn2ColonAux s.data []

/-- Insert into a string-keyed association map, overwriting an existing entry
for the key, as `Map::insert` of the sentry protocol behaves (maps built this
way keep their keys unique). -/
def mapInsert {α : Type} : List (String × α) → String → α → List (String × α)
  | [], k, v => [(k, v)]
  | p :: ps, k, v => if p.1 = k then (k, v) :: ps else p :: mapInsert ps k v

/-- Lookup in a string-keyed association map. -/
def mapLookup {α : Type} : List (String × α) → String → Option α
  | [], _ => none
  | p :: ps, k => if p.1 = k then some p.2 else mapLookup ps k

/-- The initial struct-literal construction of the event
(`send_event.rs:190-218`): level with fallback to `error`, release with
fallback to the detected release name, platform default `"other"`, logentry
from the (possibly absent) message fragments joined by newline with the
message arguments as params. `detectedRelease` models
`detect_release_name().ok()`. -/
def initialEvent (args : Args) (detectedRelease : Option String) : Event :=
  { level := (args.level.bind Level.parse).getD .error
    release :=
      match args.release with
      | some r => some r
      | none => detectedRelease
    dist := args.dist
    platform := args.platform.getD "other"
    environment := args.environment
    logentry := args.message.map (fun lines =>
      { message := String.intercalate "\n" lines
        params := (args.message_args.getD []) }) }

/-- The tags loop (`send_event.rs:224-229`): each `key:value` argument is
split on the first colon; a missing second segment is a fatal error; entries
are inserted with last-write-wins. -/
def applyTags (ev : Event) : List String → Except String Event
  | [] => .ok ev
  | t :: ts =>
    match splitKV t with
    | (_, none) => .error "missing tag value"
    | (k, some v) => applyTags { ev with tags := mapInsert ev.tags k v } ts

/-- The extra loop (`send_event.rs:238-243`): same split rule, values stored
as JSON strings. -/
def applyExtra (ev : Event) : List String → Except String Event
  | [] => .ok ev
  | p :: ps =>
    match splitKV p with
    | (_, none) => .error "missing extra value"
    | (k, some v) =>
      applyExtra { ev with extra := mapInsert ev.extra k (JValue.str v) } ps

/-- The user-pair loop (`send_event.rs:247-261`): recognized keys go to
dedicated fields, `ip_address` values are parsed (failure is fatal), anything
else lands in `other`. `ipParse` models `value.parse()` of the external IP
type, returning `none` on failure. -/
def applyUserPairs (ipParse : String → Option IpAddress) (u : User) :
    List String → Except String User
  | [] => .ok u
  | p :: ps =>
    match splitKV p with
    | (_, none) => .error "missing user value"
    | (k, some v) =>
      if k = "id" then applyUserPairs ipParse { u with id := some v } ps
      else if k = "email" then applyUserPairs ipParse { u with email := some v } ps
      else if k = "ip_address" then
        match ipParse v with
        | none => .error "invalid ip address"
        | some ip => applyUserPairs ipParse { u with ip_address := some ip } ps
      else if k = "username" then
        applyUserPairs ipParse { u with username := some v } ps
      else applyUserPairs ipParse { u with other := mapInsert u.other k v } ps

/-- User derivation (`send_event.rs:245-271`): with user pairs present, parse
them and then `get_or_insert` the default ip_address; with no pairs, fall back
to the OS user name (`osUser` models `get_user_name().ok()`) with the default
ip_address, or leave the user unset when the lookup failed. -/
def buildUser (ipParse : String → Option IpAddress) (osUser : Option String)
    (user_data : Option (List String)) : Except String (Option User) :=
  match user_data with
  | some pairs =>
    match applyUserPairs ipParse User.default pairs with
    | .error e => .error e
    | .ok u =>
      .ok (some { u with ip_address := some (u.ip_address.getD IpAddress.default) })
  | none =>
    .ok (osUser.map (fun n =>
      { User.default with
          username := some n
          ip_address := some IpAddress.default }))

/-- Scan for the first colon-plus-space boundary; everything before it is the
candidate category, everything after it the remainder. -/
def splitCatAux : List Char → List Char → Option (String × String)
  | [], _ => none
  | c :: cs, acc =>
    if c = ':' then
      match cs with
      | ' ' :: rest => some (String.mk acc.reverse, String.mk rest)
      | _ => splitCatAux cs (c :: acc)
    else splitCatAux cs (c :: acc)

/-- ASCII lowercasing of a string, character by character. -/
def lowerString (s : String) : String :=
  String.mk (s.data.map Char.toLower)

/-- Modelled from the spec: `crate::utils::event::attach_logfile`'s line
classifier (section 4.4, with-categories case): split on the first
colon+space boundary; a category token matching a level name
case-insensitively gives a levelled breadcrumb with the remainder as the
message, otherwise the whole line is the message with no level. -/
def parseBreadcrumbLine (line : String) : Breadcrumb :=
  match splitCatAux line.data [] with
  | none => { message := line }
  | some (cat, rest) =>
    match Level.parse (lowerString cat) with
    | some lv => { level := some lv, message := rest }
    | none => { message := line }

/-- Modelled from the spec: `crate::utils::event::attach_logfile` (section
4.4), over the file's lines: keep only the most recent 100 lines in original
order; without categories every retained line becomes a plain message
breadcrumb, with categories each retained line goes through the classifier. -/
def attach_logfile (lines : List String) (withCategories : Bool) :
    List Breadcrumb :=
  (lines.drop (lines.length - 100)).map (fun line =>
    if withCategories then parseBreadcrumbLine line else { message := line })

/-- Manual-assembly mode (`send_event.rs:190-282`): the full derivation
pipeline in source order — initial struct, tags loop, environ injection
(skipped under `--no-environ`), extra loop, user derivation, fingerprint
override, logfile breadcrumbs. Each `?` is an early error return. `envVars`
models `env::vars()`. -/
def assembleEvent (args : Args) (envVars : List (String × String))
    (detectedRelease : Option String) (osUser : Option String)
    (ipParse : String → Option IpAddress) : Except String Event :=
  match applyTags (initialEvent args detectedRelease) args.tags with
  | .error e => .error e
  | .ok ev1 =>
    let ev2 :=
      if args.no_environ then ev1
      else { ev1 with extra := mapInsert ev1.extra "environ" (JValue.strObj envVars) }
    match applyExtra ev2 args.extra with
    | .error e => .error e
    | .ok ev3 =>
      match buildUser ipParse osUser args.user_data with
      | .error e => .error e
      | .ok u =>
        let ev4 := { ev3 with user := u }
        let ev5 :=
          match args.fingerprint with
          | some fp => { ev4 with fingerprint := some fp }
          | none => ev4
        let ev6 :=
          match args.logfile with
          | some lines =>
            { ev5 with breadcrumbs := attach_logfile lines args.with_categories }
          | none => ev5
        .ok ev6

/-- The dispatches performed in manual-assembly mode: exactly one when
assembly succeeds (`send_raw_event` at line 284), none when a `?` aborted
first. -/
def manualDispatches (args : Args) (envVars : List (String × String))
    (detectedRelease : Option String) (osUser : Option String)
    (ipParse : String → Option IpAddress) : List Event :=
  match assembleEvent args envVars detectedRelease osUser ipParse with
  | .ok ev => [ev]
  | .error _ => []

/-- How a run of the path branch of `execute` terminates: `panic` models the
`.unwrap()` on the glob result (line 169) aborting the process, `failed`
models an `Err` return, `ok` an `Ok(())` return. -/
inductive RunOutcome where
  | panic (msg : String)
  | failed (msg : String)
  | ok
deriving DecidableEq, Repr

/-- The observable result of the path branch: how it terminated, whether the
zero-match warning was emitted (line 174), and the events dispatched, in
order. -/
structure ReplayResult where
  outcome : RunOutcome
  warned : Bool
  dispatched : List Event
deriving DecidableEq, Repr

/-- Whether the path branch terminated by returning an `Err` to the caller. -/
def RunOutcome.isFailed : RunOutcome → Bool
  | .failed _ => true
  | _ => false

/-- The replay loop (`send_event.rs:178-185`): open and decode each path in
order, dispatch each decoded event immediately; the first failure ends the
loop, keeping the dispatches already made. `decode` models
`serde_json::from_reader(File::open(p)?)`, so its error covers both the open
and the decode failure of that path. -/
def replayLoop (decode : String → Except String Event) :
    List String → List Event × Option String
  | [] => ([], none)
  | p :: ps =>
    match decode p with
    | .error e => ([], some e)
    | .ok ev =>
      let rest := replayLoop decode ps
      (ev :: rest.1, rest.2)

/-- The path branch of `execute` (`send_event.rs:167-188`). `globResult`
models the return of `glob_with`: a pattern-syntax error, or the matched
items each of which may itself be a filesystem error (`glob::GlobError`).
The code calls `.unwrap()` on the outer result — a pattern error panics —
and `.flatten()` on the items — per-item errors are dropped. An empty
collection warns and returns `Ok(())` with no dispatch. -/
def executePath (globResult : Except String (List (Except String String)))
    (decode : String → Except String Event) : ReplayResult :=
  match globResult with
  | .error e => { outcome := .panic e, warned := false, dispatched := [] }
  | .ok items =>
    let collected_paths := items.filterMap (fun i =>
      match i with
      | .ok p => some p
      | .error _ => none)
    if collected_paths.isEmpty then
      { outcome := .ok, warned := true, dispatched := [] }
    else
      let r := replayLoop decode collected_paths
      match r.2 with
      | some e => { outcome := .failed e, warned := false, dispatched := r.1 }
      | none => { outcome := .ok, warned := false, dispatched := r.1 }

theorem splitn2ColonAux_no_colon (l : List Char) :
    ∀ acc : List Char, ':' ∉ l →
      splitn2ColonAux l acc = (String.mk (acc.reverse ++ l), none) := by
  induction l with
  | nil => intro acc _; simp [splitn2ColonAux]
  | cons c cs ih =>
    intro acc h
    have hc : ¬(c = ':') := fun hcol => h (hcol ▸ List.mem_cons_self c cs)
    have hcs : ':' ∉ cs := fun hm => h (List.mem_cons_of_mem _ hm)
    simp only [splitn2ColonAux, if_neg hc, ih (c :: acc) hcs,
      List.reverse_cons, List.append_assoc, List.singleton_append]

theorem splitn2ColonAux_colon (kl : List Char) :
    ∀ (acc vl : List Char), ':' ∉ kl →
      splitn2ColonAux (kl ++ ':' :: vl) acc
        = (String.mk (acc.reverse ++ kl), some (String.mk vl)) := by
  induction kl with
  | nil => intro acc vl _; simp [splitn2ColonAux]
  | cons c cs ih =>
    intro acc vl h
    have hc : ¬(c = ':') := fun hcol => h (hcol ▸ List.mem_cons_self c cs)
    have hcs : ':' ∉ cs := fun hm => h (List.mem_cons_of_mem _ hm)
    simp only [List.cons_append, splitn2ColonAux, if_neg hc, List.append_eq]
    rw [ih (c :: acc) vl hcs]
    simp [List.reverse_cons, List.append_assoc]

theorem splitKV_no_colon (s : String) (h : ':' ∉ s.data) :
    splitKV s = (s, none) := by
  simpa [splitKV] using splitn2ColonAux_no_colon s.data [] h

theorem splitKV_first_colon (kl vl : List Char) (h : ':' ∉ kl) :
    splitKV (String.mk (kl ++ ':' :: vl)) = (String.mk kl, some (String.mk vl)) := by
  simpa [splitKV] using splitn2ColonAux_colon kl [] vl h

theorem mapLookup_mapInsert_self {α : Type} (m : List (String × α))
    (k : String) (v : α) : mapLookup (mapInsert m k v) k = some v := by
  induction m with
  | nil => simp [mapInsert, mapLookup]
  | cons p ps ih =>
    by_cases hp : p.1 = k
    · simp [mapInsert, mapLookup, hp]
    · simp [mapInsert, mapLookup, hp, ih]

theorem mapLookup_mapInsert_ne {α : Type} (m : List (String × α))
    (k' k : String) (v : α) (h : k' ≠ k) :
    mapLookup (mapInsert m k' v) k = mapLookup m k := by
  induction m with
  | nil => simp [mapInsert, mapLookup, h]
  | cons p ps ih =>
    by_cases hp : p.1 = k'
    · simp [mapInsert, mapLookup, hp, h]
    · simp only [mapInsert, if_neg hp, mapLookup]
      by_cases hpk : p.1 = k
      · simp [hpk]
      · simp [hpk, ih]

theorem splitKV_append_colon (k v : String) (h : ':' ∉ k.data) :
    splitKV (k ++ ":" ++ v) = (k, some v) := by
  have hd : (k ++ ":" ++ v).data = k.data ++ ':' :: v.data := by
    show (k.data ++ [':']) ++ v.data = _
    simp
  show splitn2ColonAux (k ++ ":" ++ v).data [] = (k, some v)
  rw [hd, splitn2ColonAux_colon k.data [] v.data h]
  rfl

theorem applyTags_ok_preserves (ts : List String) :
    ∀ ev ev' : Event, applyTags ev ts = .ok ev' →
      ev'.level = ev.level ∧ ev'.logentry = ev.logentry ∧ ev'.extra = ev.extra ∧
        ev'.user = ev.user := by
  induction ts with
  | nil =>
    intro ev ev' h
    simp only [applyTags] at h
    cases h
    exact ⟨rfl, rfl, rfl, rfl⟩
  | cons t ts ih =>
    intro ev ev' h
    rcases hs : splitKV t with ⟨k, v?⟩
    cases v? with
    | none =>
      simp only [applyTags, hs] at h
      cases h
    | some v =>
      simp only [applyTags, hs] at h
      exact ih { ev with tags := mapInsert ev.tags k v } ev' h

theorem applyExtra_ok_preserves (ps : List String) :
    ∀ ev ev' : Event, applyExtra ev ps = .ok ev' →
      ev'.level = ev.level ∧ ev'.logentry = ev.logentry ∧ ev'.tags = ev.tags ∧
        ev'.user = ev.user := by
  induction ps with
  | nil =>
    intro ev ev' h
    simp only [applyExtra] at h
    cases h
    exact ⟨rfl, rfl, rfl, rfl⟩
  | cons p ps ih =>
    intro ev ev' h
    rcases hs : splitKV p with ⟨k, v?⟩
    cases v? with
    | none =>
      simp only [applyExtra, hs] at h
      cases h
    | some v =>
      simp only [applyExtra, hs] at h
      exact ih { ev with extra := mapInsert ev.extra k (JValue.str v) } ev' h

theorem applyTags_error_of_bad (ts : List String) :
    ∀ ev : Event, (∃ t ∈ ts, (splitKV t).2 = none) →
      ∃ e, applyTags ev ts = .error e := by
  induction ts with
  | nil => intro ev h; rcases h with ⟨t, ht, _⟩; cases ht
  | cons t ts ih =>
    intro ev h
    rcases hs : splitKV t with ⟨k, v?⟩
    cases v? with
    | none => exact ⟨"missing tag value", by simp only [applyTags, hs]⟩
    | some v =>
      rcases h with ⟨x, hx, hxn⟩
      rcases List.mem_cons.mp hx with rfl | hxs
      · rw [hs] at hxn; cases hxn
      · rcases ih { ev with tags := mapInsert ev.tags k v } ⟨x, hxs, hxn⟩ with ⟨e, he⟩
        exact ⟨e, by simp only [applyTags, hs, he]⟩

theorem applyExtra_error_of_bad (ps : List String) :
    ∀ ev : Event, (∃ p ∈ ps, (splitKV p).2 = none) →
      ∃ e, applyExtra ev ps = .error e := by
  induction ps with
  | nil => intro ev h; rcases h with ⟨p, hp, _⟩; cases hp
  | cons p ps ih =>
    intro ev h
    rcases hs : splitKV p with ⟨k, v?⟩
    cases v? with
    | none => exact ⟨"missing extra value", by simp only [applyExtra, hs]⟩
    | some v =>
      rcases h with ⟨x, hx, hxn⟩
      rcases List.mem_cons.mp hx with rfl | hxs
      · rw [hs] at hxn; cases hxn
      · rcases ih { ev with extra := mapInsert ev.extra k (JValue.str v) }
          ⟨x, hxs, hxn⟩ with ⟨e, he⟩
        exact ⟨e, by simp only [applyExtra, hs, he]⟩

theorem applyUserPairs_error_of_bad (ipParse : String → Option IpAddress)
    (ps : List String) :
    ∀ u : User, (∃ p ∈ ps, (splitKV p).2 = none) →
      ∃ e, applyUserPairs ipParse u ps = .error e := by
  induction ps with
  | nil => intro u h; rcases h with ⟨p, hp, _⟩; cases hp
  | cons p ps ih =>
    intro u h
    rcases hs : splitKV p with ⟨k, v?⟩
    cases v? with
    | none => exact ⟨"missing user value", by simp only [applyUserPairs, hs]⟩
    | some v =>
      have hbad : ∃ x ∈ ps, (splitKV x).2 = none := by
        rcases h with ⟨x, hx, hxn⟩
        rcases List.mem_cons.mp hx with rfl | hxs
        · rw [hs] at hxn; cases hxn
        · exact ⟨x, hxs, hxn⟩
      by_cases hid : k = "id"
      · rcases ih { u with id := some v } hbad with ⟨e, he⟩
        exact ⟨e, by simp only [applyUserPairs, hs, if_pos hid, he]⟩
      by_cases hem : k = "email"
      · rcases ih { u with email := some v } hbad with ⟨e, he⟩
        exact ⟨e, by simp only [applyUserPairs, hs, if_neg hid, if_pos hem, he]⟩
      by_cases hip : k = "ip_address"
      · cases hv : ipParse v with
        | none =>
          exact ⟨"invalid ip address",
            by simp only [applyUserPairs, hs, if_neg hid, if_neg hem, if_pos hip, hv]⟩
        | some ip =>
          rcases ih { u with ip_address := some ip } hbad with ⟨e, he⟩
          exact ⟨e,
            by simp only [applyUserPairs, hs, if_neg hid, if_neg hem, if_pos hip, hv, he]⟩
      by_cases hun : k = "username"
      · rcases ih { u with username := some v } hbad with ⟨e, he⟩
        exact ⟨e, by simp only [applyUserPairs, hs, if_neg hid, if_neg hem, if_neg hip,
          if_pos hun, he]⟩
      · rcases ih { u with other := mapInsert u.other k v } hbad with ⟨e, he⟩
        exact ⟨e, by simp only [applyUserPairs, hs, if_neg hid, if_neg hem, if_neg hip,
          if_neg hun, he]⟩

theorem applyUserPairs_ip_unchanged (ipParse : String → Option IpAddress)
    (ps : List String) :
    ∀ u u' : User, (∀ p ∈ ps, (splitKV p).1 ≠ "ip_address") →
      applyUserPairs ipParse u ps = .ok u' → u'.ip_address = u.ip_address := by
  induction ps with
  | nil =>
    intro u u' _ h
    simp only [applyUserPairs] at h
    cases h
    rfl
  | cons p ps ih =>
    intro u u' hk h
    rcases hs : splitKV p with ⟨k, v?⟩
    have hkp : ¬(k = "ip_address") := by
      have := hk p (List.mem_cons_self p ps)
      rw [hs] at this
      exact this
    have hk' : ∀ x ∈ ps, (splitKV x).1 ≠ "ip_address" :=
      fun x hx => hk x (List.mem_cons_of_mem _ hx)
    cases v? with
    | none =>
      simp only [applyUserPairs, hs] at h
      cases h
    | some v =>
      simp only [applyUserPairs, hs] at h
      by_cases hid : k = "id"
      · rw [if_pos hid] at h
        exact ih { u with id := some v } u' hk' h
      rw [if_neg hid] at h
      by_cases hem : k = "email"
      · rw [if_pos hem] at h
        exact ih { u with email := some v } u' hk' h
      rw [if_neg hem, if_neg hkp] at h
      by_cases hun : k = "username"
      · rw [if_pos hun] at h
        exact ih { u with username := some v } u' hk' h
      · rw [if_neg hun] at h
        exact ih { u with other := mapInsert u.other k v } u' hk' h

theorem applyExtra_lookup_ne (ps : List String) :
    ∀ (ev ev' : Event) (key : String), (∀ p ∈ ps, (splitKV p).1 ≠ key) →
      applyExtra ev ps = .ok ev' →
      mapLookup ev'.extra key = mapLookup ev.extra key := by
  induction ps with
  | nil =>
    intro ev ev' key _ h
    simp only [applyExtra] at h
    cases h
    rfl
  | cons p ps ih =>
    intro ev ev' key hk h
    rcases hs : splitKV p with ⟨k, v?⟩
    cases v? with
    | none =>
      simp only [applyExtra, hs] at h
      cases h
    | some v =>
      simp only [applyExtra, hs] at h
      have hkp : k ≠ key := by
        have := hk p (List.mem_cons_self p ps)
        rw [hs] at this
        exact this
      have hk' : ∀ x ∈ ps, (splitKV x).1 ≠ key :=
        fun x hx => hk x (List.mem_cons_of_mem _ hx)
      rw [ih { ev with extra := mapInsert ev.extra k (JValue.str v) } ev' key hk' h]
      exact mapLookup_mapInsert_ne ev.extra k key (JValue.str v) hkp

theorem applyExtra_append (as bs : List String) :
    ∀ ev : Event, applyExtra ev (as ++ bs)
      = match applyExtra ev as with
        | .ok e => applyExtra e bs
        | .error e => .error e := by
  induction as with
  | nil => intro ev; simp [applyExtra]
  | cons a as ih =>
    intro ev
    rcases hs : splitKV a with ⟨k, v?⟩
    cases v? with
    | none => simp only [List.cons_append, applyExtra, hs]
    | some v =>
      simp only [List.cons_append, applyExtra, hs]
      exact ih _

theorem splitKV_environ (v : String) :
    splitKV ("environ:" ++ v) = ("environ", some v) := by
  have h : ("environ:" ++ v) = "environ" ++ ":" ++ v := rfl
  rw [h]
  exact splitKV_append_colon "environ" v (by decide)

theorem applyExtra_last_wins (ps : List String) (key v : String)
    (hkey : ':' ∉ key.data) (ev ev' : Event)
    (h : applyExtra ev (ps ++ [key ++ ":" ++ v]) = .ok ev') :
    mapLookup ev'.extra key = some (JValue.str v) := by
  rw [applyExtra_append] at h
  cases he : applyExtra ev ps with
  | error e => rw [he] at h; cases h
  | ok e1 =>
    rw [he] at h
    simp only [applyExtra, splitKV_append_colon key v hkey] at h
    cases h
    exact mapLookup_mapInsert_self _ _ _

theorem buildUser_error_of_bad (ipParse : String → Option IpAddress)
    (osUser : Option String) (pairs : List String)
    (h : ∃ p ∈ pairs, (splitKV p).2 = none) :
    ∃ e, buildUser ipParse osUser (some pairs) = .error e := by
  rcases applyUserPairs_error_of_bad ipParse pairs User.default h with ⟨e, he⟩
  exact ⟨e, by simp only [buildUser, he]⟩

theorem assembleEvent_ok_shape (args : Args) (envVars : List (String × String))
    (dr osU : Option String) (ipParse : String → Option IpAddress) (ev : Event)
    (h : assembleEvent args envVars dr osU ipParse = .ok ev) :
    ∃ (ev1 ev3 : Event) (u : Option User),
      applyTags (initialEvent args dr) args.tags = .ok ev1 ∧
      applyExtra (if args.no_environ then ev1
          else { ev1 with extra := mapInsert ev1.extra "environ" (JValue.strObj envVars) })
        args.extra = .ok ev3 ∧
      buildUser ipParse osU args.user_data = .ok u ∧
      ev.extra = ev3.extra ∧ ev.logentry = ev3.logentry ∧ ev.user = u ∧
      ev.level = ev3.level := by
  unfold assembleEvent at h
  cases h1 : applyTags (initialEvent args dr) args.tags with
  | error e => rw [h1] at h; cases h
  | ok ev1 =>
    rw [h1] at h
    simp only at h
    cases h2 : applyExtra (if args.no_environ then ev1
        else { ev1 with extra := mapInsert ev1.extra "environ" (JValue.strObj envVars) })
        args.extra with
    | error e => rw [h2] at h; cases h
    | ok ev3 =>
      rw [h2] at h
      simp only at h
      cases h3 : buildUser ipParse osU args.user_data with
      | error e => rw [h3] at h; cases h
      | ok u =>
        rw [h3] at h
        simp only at h
        refine ⟨ev1, ev3, u, ?_, ?_, ?_, ?_⟩
        · rfl
        · exact h2
        · rfl
        cases hf : args.fingerprint with
        | none =>
          cases hl : args.logfile with
          | none =>
            rw [hf, hl] at h
            simp only at h
            cases h
            exact ⟨rfl, rfl, rfl, rfl⟩
          | some lines =>
            rw [hf, hl] at h
            simp only at h
            cases h
            exact ⟨rfl, rfl, rfl, rfl⟩
        | some fp =>
          cases hl : args.logfile with
          | none =>
            rw [hf, hl] at h
            simp only at h
            cases h
            exact ⟨rfl, rfl, rfl, rfl⟩
          | some lines =>
            rw [hf, hl] at h
            simp only at h
            cases h
            exact ⟨rfl, rfl, rfl, rfl⟩

theorem assembleEvent_error_of_bad_pair (args : Args)
    (envVars : List (String × String)) (dr osU : Option String)
    (ipParse : String → Option IpAddress)
    (h : (∃ t ∈ args.tags, (splitKV t).2 = none) ∨
         (∃ p ∈ args.extra, (splitKV p).2 = none) ∨
         (∃ pairs, args.user_data = some pairs ∧
            ∃ p ∈ pairs, (splitKV p).2 = none)) :
    ∃ e, assembleEvent args envVars dr osU ipParse = .error e := by
  unfold assembleEvent
  cases h1 : applyTags (initialEvent args dr) args.tags with
  | error e => exact ⟨e, rfl⟩
  | ok ev1 =>
    rcases h with htags | hextra | huser
    · rcases applyTags_error_of_bad args.tags (initialEvent args dr) htags with ⟨e, he⟩
      rw [he] at h1
      cases h1
    · simp only
      cases h2 : applyExtra (if args.no_environ then ev1
          else { ev1 with extra := mapInsert ev1.extra "environ" (JValue.strObj envVars) })
          args.extra with
      | error e => exact ⟨e, rfl⟩
      | ok ev3 =>
        rcases applyExtra_error_of_bad args.extra _ hextra with ⟨e, he⟩
        rw [he] at h2
        cases h2
    · rcases huser with ⟨pairs, hp, hbad⟩
      simp only
      cases h2 : applyExtra (if args.no_environ then ev1
          else { ev1 with extra := mapInsert ev1.extra "environ" (JValue.strObj envVars) })
          args.extra with
      | error e => exact ⟨e, rfl⟩
      | ok ev3 =>
        simp only
        rcases buildUser_error_of_bad ipParse osU pairs hbad with ⟨e, he⟩
        rw [hp, he]
        exact ⟨e, rfl⟩

theorem replayLoop_all_ok (decode : String → Except String Event)
    (paths : List String) (h : ∀ p ∈ paths, ∃ ev, decode p = .ok ev) :
    replayLoop decode paths
      = (paths.filterMap (fun p =>
          match decode p with
          | .ok ev => some ev
          | .error _ => none), none) := by
  induction paths with
  | nil => simp [replayLoop]
  | cons p ps ih =>
    rcases h p (List.mem_cons_self p ps) with ⟨ev, hev⟩
    have hrest := ih (fun x hx => h x (List.mem_cons_of_mem _ hx))
    simp only [replayLoop, hev, hrest, List.filterMap_cons]

theorem replayLoop_first_error (decode : String → Except String Event)
    (post : List String) (bad : String) (e : String)
    (hbad : decode bad = .error e) :
    ∀ pre : List String, (∀ p ∈ pre, ∃ ev, decode p = .ok ev) →
      replayLoop decode (pre ++ bad :: post)
        = (pre.filterMap (fun p =>
            match decode p with
            | .ok ev => some ev
            | .error _ => none), some e) := by
  intro pre
  induction pre with
  | nil =>
    intro _
    simp only [List.nil_append, replayLoop, hbad, List.filterMap_nil]
  | cons p ps ih =>
    intro hpre
    rcases hpre p (List.mem_cons_self p ps) with ⟨ev, hev⟩
    have hrest := ih (fun x hx => hpre x (List.mem_cons_of_mem _ hx))
    simp only [List.cons_append, replayLoop, hev, List.append_eq, hrest,
      List.filterMap_cons]

theorem filterMap_ok_of_map_ok (l : List String) :
    (l.map (fun p => (Except.ok p : Except String String))).filterMap
      (fun i =>
        match i with
        | .ok p => some p
        | .error _ => none) = l := by
  induction l with
  | nil => simp
  | cons x xs ih => simp [ih]

theorem filterMap_length_of_all_some {α β : Type} (f : α → Option β) :
    ∀ l : List α, (∀ x ∈ l, (f x).isSome = true) →
      (l.filterMap f).length = l.length := by
  intro l
  induction l with
  | nil => intro _; rfl
  | cons x xs ih =>
    intro h
    have hx := h x (List.mem_cons_self x xs)
    rcases hfx : f x with _ | b
    · rw [hfx] at hx; cases hx
    · simp only [List.filterMap_cons, hfx, List.length_cons]
      rw [ih (fun y hy => h y (List.mem_cons_of_mem _ hy))]


/-- C1 counterexample: the claim that every filesystem or pattern-syntax
error during glob expansion surfaces as a returned error is false. A
pattern-syntax error makes the run panic (via `.unwrap()` on the glob result)
instead of returning an error, and a filesystem error on a matched path is
silently discarded (via `.flatten()`), the run then succeeding with the
zero-match warning. -/
theorem C1_counterexample :
    (executePath (.error "invalid pattern")
        (fun _ => .error "unused")).outcome.isFailed = false ∧
    executePath (.error "invalid pattern") (fun _ => .error "unused")
      = { outcome := .panic "invalid pattern", warned := false, dispatched := [] } ∧
    (executePath (.ok [.error "permission denied"])
        (fun _ => .error "unused")).outcome.isFailed = false ∧
    executePath (.ok [.error "permission denied"]) (fun _ => .error "unused")
      = { outcome := .ok, warned := true, dispatched := [] } :=
  ⟨rfl, rfl, rfl, rfl⟩

/-- C1 amended: a pattern-syntax error while expanding the supplied glob
pattern causes a panic (the code unwraps the glob result) rather than a
returned error, and filesystem errors raised for individual matched paths are
silently discarded by the flatten step — the run continues exactly as if only
the successfully matched paths had been produced. -/
theorem C1_glob_errors (e : String) (decode : String → Except String Event)
    (items : List (Except String String)) :
    executePath (.error e) decode
      = { outcome := .panic e, warned := false, dispatched := [] } ∧
    executePath (.ok items) decode
      = executePath (.ok ((items.filterMap (fun i =>
          match i with
          | .ok p => some p
          | .error _ => none)).map Except.ok)) decode := by
  refine ⟨rfl, ?_⟩
  simp only [executePath, filterMap_ok_of_map_ok]

/-- C8: when the glob expansion matches zero files, the command emits the
warning, performs no dispatch, and returns `Ok(())` (exit code 0, not an
error). -/
theorem C8_zero_matches (decode : String → Except String Event) :
    executePath (.ok []) decode
      = { outcome := .ok, warned := true, dispatched := [] } :=
  rfl

/-- C7: in file-replay mode, exactly one dispatch is made per successfully
decoded file, in glob listing order; the first open/decode failure aborts the
run, so the dispatched list stops right before the failing file and nothing
after it is opened or dispatched (the result does not depend on the files
after the failing one). With no failure, every matched file is dispatched, in
order, one dispatch per file. -/
theorem C7_replay_order (decode : String → Except String Event)
    (pre post : List String) (bad e : String)
    (hpre : ∀ p ∈ pre, ∃ ev, decode p = .ok ev)
    (hbad : decode bad = .error e) :
    executePath (.ok ((pre ++ bad :: post).map Except.ok)) decode
      = { outcome := .failed e, warned := false,
          dispatched := pre.filterMap (fun p =>
            match decode p with
            | .ok ev => some ev
            | .error _ => none) } ∧
    (pre ≠ [] →
      executePath (.ok (pre.map Except.ok)) decode
        = { outcome := .ok, warned := false,
            dispatched := pre.filterMap (fun p =>
              match decode p with
              | .ok ev => some ev
              | .error _ => none) }) ∧
    (pre.filterMap (fun p =>
      match decode p with
      | .ok ev => some ev
      | .error _ => none)).length = pre.length := by
  have hlen : (pre.filterMap (fun p =>
      match decode p with
      | .ok ev => some ev
      | .error _ => none)).length = pre.length := by
    apply filterMap_length_of_all_some
    intro x hx
    rcases hpre x hx with ⟨ev, hev⟩
    rw [hev]
    rfl
  refine ⟨?_, ?_, hlen⟩
  · have hne : ((pre ++ bad :: post)).isEmpty = false := by
      cases pre <;> rfl
    have hloop := replayLoop_first_error decode post bad e hbad pre hpre
    simp only [executePath, filterMap_ok_of_map_ok, hne, Bool.false_eq_true,
      if_false, hloop]
  · intro hne
    have hempty : pre.isEmpty = false := by
      cases pre with
      | nil => cases hne rfl
      | cons x xs => rfl
    have hloop := replayLoop_all_ok decode pre hpre
    simp only [executePath, filterMap_ok_of_map_ok, hempty, Bool.false_eq_true,
      if_false, hloop]

/-- C7 witness: a concrete three-file run where the second file fails to
decode dispatches exactly the first file's event and aborts. -/
theorem C7_witness :
    executePath (.ok ((["a"] ++ "b" :: ["c"]).map Except.ok))
        (fun p => if p = "a" then .ok {} else .error "decode failure")
      = { outcome := .failed "decode failure", warned := false,
          dispatched := [{}] } :=
  by
    have h := C7_replay_order
      (fun p => if p = "a" then .ok {} else .error "decode failure")
      ["a"] ["c"] "b" "decode failure"
      (by intro p hp; simp at hp; subst hp; exact ⟨{}, rfl⟩)
      (by rfl)
    simpa using h.1

/-- C2: every tag, extra and user `key:value` argument is split on the first
colon only — the key is everything before the first colon and the value is
everything after it, colons included. In particular the user pair
`"id:user:42"` yields the user id `"user:42"`. -/
theorem C2_first_colon_only (k v : String) (hk : ':' ∉ k.data)
    (ipParse : String → Option IpAddress) (osUser : Option String)
    (ev : Event) :
    splitKV (k ++ ":" ++ v) = (k, some v) ∧
    splitKV "id:user:42" = ("id", some "user:42") ∧
    applyTags ev [k ++ ":" ++ v] = .ok { ev with tags := mapInsert ev.tags k v } ∧
    applyExtra ev [k ++ ":" ++ v]
      = .ok { ev with extra := mapInsert ev.extra k (JValue.str v) } ∧
    buildUser ipParse osUser (some ["id:user:42"])
      = .ok (some { id := some "user:42", email := none,
                    ip_address := some IpAddress.default, username := none,
                    other := [] }) := by
  have hs := splitKV_append_colon k v hk
  refine ⟨hs, by decide, ?_, ?_, rfl⟩
  · simp only [applyTags, hs]
  · simp only [applyExtra, hs]

/-- C2 witness: the split of a concrete pair whose value itself contains a
colon. -/
theorem C2_witness :
    splitKV ("mykey" ++ ":" ++ "a:b") = ("mykey", some "a:b") :=
  (C2_first_colon_only "mykey" "a:b" (by decide) (fun _ => none) none {}).1

/-- C3: a tag, extra or user argument containing no colon at all makes
manual assembly fail with a validation error, and no dispatch occurs. -/
theorem C3_no_colon_fatal (args : Args) (envVars : List (String × String))
    (dr osU : Option String) (ipParse : String → Option IpAddress)
    (h : (∃ t ∈ args.tags, ':' ∉ t.data) ∨
         (∃ p ∈ args.extra, ':' ∉ p.data) ∨
         (∃ pairs, args.user_data = some pairs ∧ ∃ p ∈ pairs, ':' ∉ p.data)) :
    (∃ e, assembleEvent args envVars dr osU ipParse = .error e) ∧
    manualDispatches args envVars dr osU ipParse = [] := by
  have hsnd : ∀ s : String, ':' ∉ s.data → (splitKV s).2 = none := by
    intro s hs
    rw [splitKV_no_colon s hs]
  have hbad : (∃ t ∈ args.tags, (splitKV t).2 = none) ∨
      (∃ p ∈ args.extra, (splitKV p).2 = none) ∨
      (∃ pairs, args.user_data = some pairs ∧
        ∃ p ∈ pairs, (splitKV p).2 = none) := by
    rcases h with ⟨t, ht, hc⟩ | ⟨p, hp, hc⟩ | ⟨pairs, hps, p, hp, hc⟩
    · exact Or.inl ⟨t, ht, hsnd t hc⟩
    · exact Or.inr (Or.inl ⟨p, hp, hsnd p hc⟩)
    · exact Or.inr (Or.inr ⟨pairs, hps, p, hp, hsnd p hc⟩)
  rcases assembleEvent_error_of_bad_pair args envVars dr osU ipParse hbad with ⟨e, he⟩
  refine ⟨⟨e, he⟩, ?_⟩
  unfold manualDispatches
  rw [he]

/-- C3 witness: the concrete colon-less tag `"novalue"` aborts assembly with
no dispatch. -/
theorem C3_witness :
    (∃ e, assembleEvent { tags := ["novalue"] } [] none none (fun _ => none)
        = .error e) ∧
    manualDispatches { tags := ["novalue"] } [] none none (fun _ => none) = [] :=
  C3_no_colon_fatal { tags := ["novalue"] } [] none none (fun _ => none)
    (Or.inl ⟨"novalue", by decide, by decide⟩)

/-- C9: the event level is derived by parsing the supplied string
case-sensitively against the five-value enum; an unparseable string or an
absent flag yields `error`; a string parses exactly when it is one of the
five lowercase names (so uppercase variants fall back to `error`); and the
derived level reaches the assembled event unchanged — it is always one of
the five enumerated values by construction. -/
theorem C9_level_derivation (args : Args) (dr : Option String) :
    (args.level = none → (initialEvent args dr).level = .error) ∧
    (∀ s, args.level = some s → Level.parse s = none →
      (initialEvent args dr).level = .error) ∧
    (∀ s lv, args.level = some s → Level.parse s = some lv →
      (initialEvent args dr).level = lv) ∧
    (∀ s : String, (Level.parse s).isSome = true ↔
      s = "debug" ∨ s = "info" ∨ s = "warning" ∨ s = "error" ∨ s = "fatal") ∧
    Level.parse "ERROR" = none ∧ Level.parse "Error" = none ∧
    (∀ envVars osU ipParse ev,
      assembleEvent args envVars dr osU ipParse = .ok ev →
      ev.level = (initialEvent args dr).level) := by
  refine ⟨?_, ?_, ?_, ?_, by decide, by decide, ?_⟩
  · intro h
    simp [initialEvent, h]
  · intro s hs hp
    simp [initialEvent, hs, hp]
  · intro s lv hs hp
    simp [initialEvent, hs, hp]
  · intro s
    unfold Level.parse
    split_ifs with h1 h2 h3 h4 h5 <;> simp_all
  · intro envVars osU ipParse ev h
    rcases assembleEvent_ok_shape args envVars dr osU ipParse ev h with
      ⟨ev1, ev3, u, h1, h2, h3, _, _, _, hlev⟩
    have hp1 := applyTags_ok_preserves args.tags (initialEvent args dr) ev1 h1
    have hp2 := applyExtra_ok_preserves args.extra _ ev3 h2
    rw [hlev, hp2.1]
    have henv : (if args.no_environ then ev1
        else { ev1 with
          extra := mapInsert ev1.extra "environ" (JValue.strObj envVars) }).level
        = ev1.level := by
      cases args.no_environ <;> rfl
    rw [henv, hp1.1]

/-- C9 witness: a parseable lowercase level is adopted, its uppercase variant
falls back to `error`. -/
theorem C9_witness :
    (initialEvent { level := some "warning" } none).level = Level.warning ∧
    (initialEvent { level := some "WARNING" } none).level = Level.error :=
  ⟨(C9_level_derivation { level := some "warning" } none).2.2.1 "warning"
      Level.warning rfl rfl,
   (C9_level_derivation { level := some "WARNING" } none).2.1 "WARNING" rfl rfl⟩

/-- C6: logfile breadcrumb extraction retains exactly the most recent 100
lines (of 150 lines, the last 100, i.e. everything after dropping the first
50) in original chronological order; with categories enabled,
`"ERROR: disk full"` becomes a breadcrumb with level `error` and message
`"disk full"`, and a line with no recognizable category prefix becomes a
breadcrumb whose message is the whole line with no level set. -/
theorem C6_breadcrumbs (lines : List String) (h : lines.length = 150) :
    attach_logfile lines true = (lines.drop 50).map parseBreadcrumbLine ∧
    (attach_logfile lines true).length = 100 ∧
    parseBreadcrumbLine "ERROR: disk full"
      = { level := some Level.error, message := "disk full" } ∧
    parseBreadcrumbLine "random text"
      = { level := none, message := "random text" } := by
  have h1 : attach_logfile lines true = (lines.drop 50).map parseBreadcrumbLine := by
    simp [attach_logfile, h]
  refine ⟨h1, ?_, by decide, by decide⟩
  rw [h1]
  simp [h]

/-- C6 witness: a concrete 150-line logfile keeps exactly 100 breadcrumbs. -/
theorem C6_witness :
    (attach_logfile (List.replicate 150 "random text") true).length = 100 :=
  (C6_breadcrumbs (List.replicate 150 "random text") (by simp)).2.1

/-- C10: with no message fragment supplied, supplied message arguments are
silently discarded — the assembled result is identical whatever the message
arguments are, the event carries no logentry at all, and no error is raised
on their account; with at least one fragment present, the arguments are
attached as the logentry's params in the order given. -/
theorem C10_message_args (args : Args) (margs : Option (List String))
    (envVars : List (String × String)) (dr osU : Option String)
    (ipParse : String → Option IpAddress) :
    assembleEvent { args with message := none, message_args := margs }
        envVars dr osU ipParse
      = assembleEvent { args with message := none, message_args := none }
        envVars dr osU ipParse ∧
    (∀ ev, assembleEvent { args with message := none, message_args := margs }
        envVars dr osU ipParse = .ok ev → ev.logentry = none) ∧
    (∀ msgs ev, assembleEvent { args with message := some msgs, message_args := margs }
        envVars dr osU ipParse = .ok ev →
      ev.logentry = some { message := String.intercalate "\n" msgs,
                           params := margs.getD [] }) := by
  have hlog : ∀ (m : Option (List String)) (ev : Event),
      assembleEvent { args with message := m, message_args := margs }
        envVars dr osU ipParse = .ok ev →
      ev.logentry = (initialEvent { args with message := m, message_args := margs } dr).logentry := by
    intro m ev h
    rcases assembleEvent_ok_shape _ envVars dr osU ipParse ev h with
      ⟨ev1, ev3, u, h1, h2, h3, _, hle, _, _⟩
    have hp1 := applyTags_ok_preserves _ _ ev1 h1
    have hp2 := applyExtra_ok_preserves _ _ ev3 h2
    rw [hle, hp2.2.1]
    have henv : (if ({ args with message := m, message_args := margs } : Args).no_environ then ev1
        else { ev1 with
          extra := mapInsert ev1.extra "environ" (JValue.strObj envVars) }).logentry
        = ev1.logentry := by
      cases ({ args with message := m, message_args := margs } : Args).no_environ <;> rfl
    rw [henv, hp1.2.1]
  refine ⟨?_, ?_, ?_⟩
  · simp [assembleEvent, initialEvent]
  · intro ev h
    rw [hlog none ev h]
    simp [initialEvent]
  · intro msgs ev h
    rw [hlog (some msgs) ev h]
    simp [initialEvent]

/-- C10 witness: a concrete run with message arguments but no message behaves
exactly as the run without them. -/
theorem C10_witness :
    assembleEvent { message := none, message_args := some ["zzz"] }
        [] none none (fun _ => none)
      = assembleEvent { message := none, message_args := none }
        [] none none (fun _ => none) :=
  (C10_message_args {} (some ["zzz"]) [] none none (fun _ => none)).1

/-- C4: unless `--no-environ` is given, an `"environ"` entry holding the
process environment as string values is inserted into extra before the
user-supplied extra pairs, so a user-supplied `environ` key overwrites the
injected entry; with `--no-environ` nothing is injected and the key is absent
unless the user supplies their own. -/
theorem C4_environ (args : Args) (envVars : List (String × String))
    (dr osU : Option String) (ipParse : String → Option IpAddress)
    (ev : Event) :
    (args.no_environ = false →
      (∀ p ∈ args.extra, (splitKV p).1 ≠ "environ") →
      assembleEvent args envVars dr osU ipParse = .ok ev →
      mapLookup ev.extra "environ" = some (JValue.strObj envVars)) ∧
    (args.no_environ = true →
      (∀ p ∈ args.extra, (splitKV p).1 ≠ "environ") →
      assembleEvent args envVars dr osU ipParse = .ok ev →
      mapLookup ev.extra "environ" = none) ∧
    (∀ es v, args.extra = es ++ ["environ:" ++ v] →
      assembleEvent args envVars dr osU ipParse = .ok ev →
      mapLookup ev.extra "environ" = some (JValue.str v)) := by
  refine ⟨?_, ?_, ?_⟩
  · intro hne hkeys h
    rcases assembleEvent_ok_shape args envVars dr osU ipParse ev h with
      ⟨ev1, ev3, u, h1, h2, h3, hex, _, _, _⟩
    have hadj : (if args.no_environ then ev1
        else { ev1 with
          extra := mapInsert ev1.extra "environ" (JValue.strObj envVars) })
        = { ev1 with
          extra := mapInsert ev1.extra "environ" (JValue.strObj envVars) } := by
      rw [hne]
      simp
    rw [hadj] at h2
    rw [hex, applyExtra_lookup_ne args.extra _ ev3 "environ" hkeys h2]
    exact mapLookup_mapInsert_self _ _ _
  · intro hne hkeys h
    rcases assembleEvent_ok_shape args envVars dr osU ipParse ev h with
      ⟨ev1, ev3, u, h1, h2, h3, hex, _, _, _⟩
    have hadj : (if args.no_environ then ev1
        else { ev1 with
          extra := mapInsert ev1.extra "environ" (JValue.strObj envVars) })
        = ev1 := by
      rw [hne]
      simp
    rw [hadj] at h2
    have hp1 := applyTags_ok_preserves args.tags _ ev1 h1
    rw [hex, applyExtra_lookup_ne args.extra _ ev3 "environ" hkeys h2, hp1.2.2.1]
    rfl
  · intro es v hextra h
    rcases assembleEvent_ok_shape args envVars dr osU ipParse ev h with
      ⟨ev1, ev3, u, h1, h2, h3, hex, _, _, _⟩
    rw [hextra] at h2
    rw [hex]
    exact applyExtra_last_wins es "environ" v (by decide) _ ev3 h2

/-- C4 witness: with the default flags the injected environ entry is present
with the full environment snapshot. -/
theorem C4_witness :
    mapLookup ({ extra := [("environ", JValue.strObj [("HOME", "/root")])] }
        : Event).extra "environ"
      = some (JValue.strObj [("HOME", "/root")]) :=
  (C4_environ {} [("HOME", "/root")] none none (fun _ => none)
      { extra := [("environ", JValue.strObj [("HOME", "/root")])] }).1
    rfl (by simp) rfl

/-- C5: when user pairs are supplied, the produced user record always carries
a concrete ip_address; if no pair sets `ip_address` it is the default
unspecified/zero address. With no user pairs at all, the user falls back to
the OS-reported name as username with the default ip_address, and if the OS
lookup failed the user field stays entirely unset. -/
theorem C5_user_derivation (args : Args) (envVars : List (String × String))
    (dr osU : Option String) (ipParse : String → Option IpAddress)
    (ev : Event) :
    (∀ pairs, args.user_data = some pairs →
      assembleEvent args envVars dr osU ipParse = .ok ev →
      ∃ u ip, ev.user = some u ∧ u.ip_address = some ip) ∧
    (∀ pairs, args.user_data = some pairs →
      (∀ p ∈ pairs, (splitKV p).1 ≠ "ip_address") →
      assembleEvent args envVars dr osU ipParse = .ok ev →
      ∃ u, ev.user = some u ∧ u.ip_address = some IpAddress.default) ∧
    (args.user_data = none → ∀ n, osU = some n →
      assembleEvent args envVars dr osU ipParse = .ok ev →
      ev.user = some { User.default with
                         username := some n
                         ip_address := some IpAddress.default }) ∧
    (args.user_data = none → osU = none →
      assembleEvent args envVars dr osU ipParse = .ok ev →
      ev.user = none) := by
  refine ⟨?_, ?_, ?_, ?_⟩
  · intro pairs hud h
    rcases assembleEvent_ok_shape args envVars dr osU ipParse ev h with
      ⟨ev1, ev3, u, h1, h2, h3, _, _, huser, _⟩
    rw [hud] at h3
    simp only [buildUser] at h3
    cases hap : applyUserPairs ipParse User.default pairs with
    | error e => rw [hap] at h3; cases h3
    | ok u' =>
      rw [hap] at h3
      simp only at h3
      injection h3 with h3
      rw [huser, ← h3]
      exact ⟨_, _, rfl, rfl⟩
  · intro pairs hud hnoip h
    rcases assembleEvent_ok_shape args envVars dr osU ipParse ev h with
      ⟨ev1, ev3, u, h1, h2, h3, _, _, huser, _⟩
    rw [hud] at h3
    simp only [buildUser] at h3
    cases hap : applyUserPairs ipParse User.default pairs with
    | error e => rw [hap] at h3; cases h3
    | ok u' =>
      rw [hap] at h3
      simp only at h3
      injection h3 with h3
      have hip := applyUserPairs_ip_unchanged ipParse pairs User.default u' hnoip hap
      rw [huser, ← h3]
      refine ⟨_, rfl, ?_⟩
      simp only [hip]
      rfl
  · intro hud n hos h
    rcases assembleEvent_ok_shape args envVars dr osU ipParse ev h with
      ⟨ev1, ev3, u, h1, h2, h3, _, _, huser, _⟩
    rw [hud, hos] at h3
    simp only [buildUser] at h3
    injection h3 with h3
    rw [huser, ← h3]
    rfl
  · intro hud hos h
    rcases assembleEvent_ok_shape args envVars dr osU ipParse ev h with
      ⟨ev1, ev3, u, h1, h2, h3, _, _, huser, _⟩
    rw [hud, hos] at h3
    simp only [buildUser] at h3
    injection h3 with h3
    rw [huser, ← h3]
    rfl

/-- C5 witness: `--user id:7` yields a user with id `"7"` and the defaulted
(still present) ip_address. -/
theorem C5_witness :
    ∃ u, ({ extra := [("environ", JValue.strObj [])]
            user := some { id := some "7"
                           ip_address := some IpAddress.default } } : Event).user
        = some u ∧ u.ip_address = some IpAddress.default :=
  (C5_user_derivation { user_data := some ["id:7"] } [] none none
      (fun _ => none)
      { extra := [("environ", JValue.strObj [])]
        user := some { id := some "7"
                       ip_address := some IpAddress.default } }).2.1
    ["id:7"] rfl (by decide) rfl
